import Mathlib

/-!
Verification of the clockify-sdk report pipeline.

Shallow embedding of the repository's core: the duration resolver and
grouping logic of `examples/project_detail.py`, the pagination loop of
`clockify_sdk/models/report.py` (`get_detailed_all_pages`), the compliance
check `_check_hours_compliance` together with
`clockify_sdk/utils/date_utils.py` (`count_weeks_in_range`), and the HTTP
error mapping of `clockify_sdk/connection.py` (`ConnectionManager.request`).

Modelling conventions:
* Parsed timestamps are integers (seconds since the Unix epoch, UTC); a
  timestamp string is either `Ts.valid t` (parseable, nonempty) or
  `Ts.malformed` (nonempty but unparseable, `datetime.fromisoformat`
  raises).  A missing, `None` or empty-string field is `Option.none`:
  Python truthiness (`if not start`) treats `None` and `""` alike, and no
  code path distinguishes them.
* Python float arithmetic in the compliance check is embedded over `ℚ`;
  every quantity the claims exercise (whole days, hundredths of hours) is
  exactly representable in binary64, so the rational model agrees with the
  float semantics on them.
* Python dicts are embedded as insertion-ordered association lists with
  first-match lookup and first-match update; keys are unique by
  construction, as in a dict.
-/

namespace Clockify

/-- A timestamp string from the wire: either it parses to an instant
(seconds since epoch, after normalising a `Z` suffix to `+00:00`), or it is
malformed and `datetime.fromisoformat` raises on it. -/
inductive Ts where
  | valid (epochSec : Int)
  | malformed
deriving DecidableEq, Repr

/-- One time-entry record as consumed by `_calculate_duration` and the
grouping functions: the fields `userId`, `taskId`, `duration`,
`timeInterval.start`, `timeInterval.end`, `billable` of the JSON object.
`none` stands for an absent / `None` / empty (falsy) field. -/
structure TimeEntry where
  userId : Option String := none
  taskId : Option String := none
  duration : Option Int := none
  start : Option Ts := none
  stop : Option Ts := none
  billable : Bool := false
deriving DecidableEq, Repr

/-- Python truthiness of an optional string: `None` and `""` are falsy. -/
def truthyStr : Option String → Bool
  | none => false
  | some s => !s.isEmpty

/-- Python truthiness of the optional `duration` field: `None` and `0` are
falsy (`if entry.get("duration"):`). -/
def truthyDuration : Option Int → Bool
  | none => false
  | some d => d != 0

/-- `_parse_date` (project_detail.py): returns the parsed instant, raises
(`Except.error`) on a malformed string. -/
def parseDate : Ts → Except Unit Int
  | .valid t => .ok t
  | .malformed => .error ()

/-- `_calculate_duration` (project_detail.py / advanced_usage.py): use the
explicit `duration` field when truthy; otherwise subtract the parsed
`timeInterval` bounds, returning 0 when either bound is missing and 0 when
parsing raises (`except (ValueError, TypeError)`). -/
def calculateDuration (e : TimeEntry) : Int :=
  match e.duration with
  | some d =>
    if d ≠ 0 then d
    else durationFromInterval e
  | none => durationFromInterval e
where
  /-- The `timeInterval`-based fallback branch of `_calculate_duration`. -/
  durationFromInterval (e : TimeEntry) : Int :=
    match e.start, e.stop with
    | some s, some en =>
      match parseDate s, parseDate en with
      | .ok ts, .ok te => te - ts
      | _, _ => 0
    | _, _ => 0

end Clockify

namespace Clockify

/-- **C7** (corrected).  An entry whose explicit `duration` field is truthy
— present and nonzero — resolves to that value unchanged, whatever the
`timeInterval` fields hold.  (The unamended claim, covering a present
duration of 0, is refuted by `calculateDuration_explicit_zero_cex`.) -/
theorem calculateDuration_explicit (e : TimeEntry) (d : Int)
    (hd : e.duration = some d) (hnz : d ≠ 0) :
    calculateDuration e = d := by
  unfold calculateDuration
  rw [hd]
  simp [hnz]

/-- Witness for C7: a concrete entry with `duration = 1800` and a
contradicting start/end pair still resolves to 1800. -/
theorem calculateDuration_explicit_witness :
    ({ duration := some 1800, start := some (.valid 0),
       stop := some (.valid 7200)} : TimeEntry).duration = some 1800 ∧
    calculateDuration
      { duration := some 1800, start := some (.valid 0),
        stop := some (.valid 7200)} = 1800 :=
  ⟨rfl, calculateDuration_explicit _ 1800 rfl (by decide)⟩

/-- **C7 counterexample.**  An entry that carries the explicit duration
value 0 together with a valid one-hour interval does *not* resolve to the
explicit value 0: the falsy check `if entry.get("duration"):` falls through
to the timestamps and yields 3600. -/
theorem calculateDuration_explicit_zero_cex :
    calculateDuration
      { duration := some 0, start := some (.valid 0),
        stop := some (.valid 3600)} = 3600 ∧ (3600 : Int) ≠ 0 := by
  constructor
  · rfl
  · decide

/-- **C10.**  A present-but-falsy explicit duration (the concrete case
`duration = 0`) is treated as absent: with valid start and end timestamps
the entry resolves to end minus start, exactly as when the field is
missing. -/
theorem calculateDuration_falsy_fallthrough (s en : Int) :
    calculateDuration
      { duration := some 0, start := some (.valid s),
        stop := some (.valid en)} = en - s ∧
    calculateDuration
      { duration := none, start := some (.valid s),
        stop := some (.valid en)} = en - s := by
  constructor <;> rfl

/-- Witness for C10 at a concrete input: start 1000, end 4600, explicit
duration 0 resolves to 3600. -/
theorem calculateDuration_falsy_fallthrough_witness :
    calculateDuration
      { duration := some 0, start := some (.valid 1000),
        stop := some (.valid 4600)} = 3600 :=
  (calculateDuration_falsy_fallthrough 1000 4600).1

/-- **C8.**  For an entry without a truthy explicit duration, resolution
returns 0 whenever the start or the end timestamp is missing, and returns 0
whenever either present timestamp is malformed; `calculateDuration` is a
total function into `Int`, so no parse error ever propagates. -/
theorem calculateDuration_missing_or_malformed (e : TimeEntry)
    (hdur : truthyDuration e.duration = false)
    (hbad : e.start = none ∨ e.stop = none ∨
      e.start = some .malformed ∨ e.stop = some .malformed) :
    calculateDuration e = 0 := by
  have hfall : calculateDuration e = calculateDuration.durationFromInterval e := by
    unfold calculateDuration
    match hd : e.duration with
    | none => rfl
    | some d =>
      have : d = 0 := by
        simp [truthyDuration, hd] at hdur
        exact hdur
      simp [this]
  rw [hfall]
  unfold calculateDuration.durationFromInterval
  rcases hs : e.start with _ | s
  · rcases ht : e.stop with _ | t <;> simp
  · rcases ht : e.stop with _ | t
    · simp
    · rw [hs, ht] at hbad
      rcases hbad with h | h | h | h
      · exact absurd h (by simp)
      · exact absurd h (by simp)
      · injection h with h
        subst h
        cases t <;> simp [parseDate]
      · injection h with h
        subst h
        cases s <;> simp [parseDate]

/-- Witness for C8: an entry with no duration, a malformed start and a
valid end resolves to 0. -/
theorem calculateDuration_missing_or_malformed_witness :
    truthyDuration (none : Option Int) = false ∧
    calculateDuration
      { duration := none, start := some .malformed,
        stop := some (.valid 50)} = 0 :=
  ⟨rfl, calculateDuration_missing_or_malformed _ rfl (Or.inr (Or.inr (Or.inl rfl)))⟩

end Clockify

namespace Clockify

/-- First-match lookup in an insertion-ordered association list, the
embedding of Python `dict[key]` / `key in dict` (keys are unique by
construction in every dict the code builds). -/
def alistLookup {β : Type} : List (String × β) → String → Option β
  | [], _ => none
  | (k, v) :: rest, key => if k = key then some v else alistLookup rest key

/-- One value of the `developer_minimums.json` configuration: the per-user
dict read by `_check_hours_compliance`; `minimum_weekly_hours` may be
absent, in which case `.get('minimum_weekly_hours', 0)` yields 0. -/
structure UserConfig where
  minimum_weekly_hours : Option ℚ := none
deriving DecidableEq, Repr

/-- The loaded minimum-hours configuration: user id to per-user config. -/
def MinimumHoursConfig : Type := List (String × UserConfig)

/-- `count_weeks_in_range` (clockify_sdk/utils/date_utils.py): the range's
`total_seconds()` divided by `24 * 3600`, then by `7.0`.  Datetimes are
embedded as epoch seconds in `ℚ`. -/
def count_weeks_in_range (startDate endDate : ℚ) : ℚ :=
  let totalDays := (endDate - startDate) / (24 * 3600)
  totalDays / 7

/-- `_check_hours_compliance` (project_detail.py): returns
`(is_compliant, display_prefix)`.  Users absent from the configuration, or
with a configured minimum ≤ 0, are always compliant; otherwise the minimum
is pro-rated by `count_weeks_in_range` and compared inclusively. -/
def check_hours_compliance (config : MinimumHoursConfig) (userId : String)
    (actualHours : ℚ) (startDate endDate : ℚ) : Bool × String :=
  match alistLookup config userId with
  | none => (true, "")
  | some userConfig =>
    let minimumWeeklyHours := userConfig.minimum_weekly_hours.getD 0
    if minimumWeeklyHours ≤ 0 then (true, "")
    else
      let weeksInPeriod := count_weeks_in_range startDate endDate
      let expectedMinimum := minimumWeeklyHours * weeksInPeriod
      if actualHours ≥ expectedMinimum then (true, "")
      else (false, "🔴 ")

end Clockify

namespace Clockify

/-- **C5.**  For a user configured with minimum weekly hours `m > 0`,
compliance holds exactly when the actual hours reach
`m * (totalDays(period) / 7)`, where `totalDays` is the period length in
(fractional) days; the boundary value is compliant. -/
theorem check_hours_compliance_prorated (config : MinimumHoursConfig)
    (userId : String) (uc : UserConfig) (m actualHours startDate endDate : ℚ)
    (hlook : alistLookup config userId = some uc)
    (hm : uc.minimum_weekly_hours.getD 0 = m) (hpos : 0 < m) :
    (check_hours_compliance config userId actualHours startDate endDate).1 = true ↔
      actualHours ≥ m * (((endDate - startDate) / 86400) / 7) := by
  unfold check_hours_compliance
  rw [hlook]
  dsimp only
  rw [hm]
  rw [if_neg (not_le.mpr hpos)]
  have hdays : count_weeks_in_range startDate endDate =
      ((endDate - startDate) / 86400) / 7 := by
    unfold count_weeks_in_range
    norm_num
  rw [hdays]
  by_cases hge : actualHours ≥ m * (((endDate - startDate) / 86400) / 7)
  · simp [hge]
  · simp [hge]

/-- Witness for C5, at the claim's own instance: minimum 40 over a period
of exactly 14 days (1 209 600 seconds) pro-rates to 80; 79.99 hours is not
compliant and 80.0 hours is compliant. -/
theorem check_hours_compliance_prorated_witness :
    (check_hours_compliance [("u1", { minimum_weekly_hours := some 40 })]
        "u1" (7999/100) 0 1209600).1 = false ∧
    (check_hours_compliance [("u1", { minimum_weekly_hours := some 40 })]
        "u1" 80 0 1209600).1 = true := by
  have h1 := check_hours_compliance_prorated
    [("u1", { minimum_weekly_hours := some 40 })] "u1"
    { minimum_weekly_hours := some 40 } 40 (7999/100) 0 1209600
    (by rfl) (by rfl) (by norm_num)
  have h2 := check_hours_compliance_prorated
    [("u1", { minimum_weekly_hours := some 40 })] "u1"
    { minimum_weekly_hours := some 40 } 40 80 0 1209600
    (by rfl) (by rfl) (by norm_num)
  constructor
  · have hlt : ¬ ((7999/100 : ℚ) ≥ 40 * (((1209600 - 0) / 86400) / 7)) := by
      norm_num
    rcases hb : (check_hours_compliance
        [("u1", { minimum_weekly_hours := some 40 })] "u1" (7999/100) 0
        1209600).1 with _ | _
    · rfl
    · exact absurd (h1.mp (by rw [hb])) hlt
  · exact h2.mpr (by norm_num)

/-- **C6.**  A user with no entry in the compliance configuration is
compliant whatever the actual hours and period; so is a user whose
configured minimum is ≤ 0. -/
theorem check_hours_compliance_absent_or_nonpositive
    (config : MinimumHoursConfig) (userId : String)
    (actualHours startDate endDate : ℚ) (uc : UserConfig)
    (h : alistLookup config userId = none ∨
      (alistLookup config userId = some uc ∧ uc.minimum_weekly_hours.getD 0 ≤ 0)) :
    check_hours_compliance config userId actualHours startDate endDate =
      (true, "") := by
  unfold check_hours_compliance
  rcases h with h | ⟨h, hle⟩
  · rw [h]
  · rw [h]
    simp [hle]

/-- Witness for C6: an empty configuration, and a configured minimum of 0,
both yield compliant at concrete inputs. -/
theorem check_hours_compliance_absent_or_nonpositive_witness :
    check_hours_compliance [] "u1" 0 0 1209600 = (true, "") ∧
    check_hours_compliance [("u2", { minimum_weekly_hours := some 0 })]
      "u2" 0 0 1209600 = (true, "") :=
  ⟨check_hours_compliance_absent_or_nonpositive [] "u1" 0 0 1209600
      { minimum_weekly_hours := none } (Or.inl rfl),
    check_hours_compliance_absent_or_nonpositive _ "u2" 0 0 1209600
      { minimum_weekly_hours := some 0 } (Or.inr ⟨rfl, by norm_num⟩)⟩

end Clockify

namespace Clockify

/-- The body of the `while True` loop of `get_detailed_all_pages`
(clockify_sdk/models/report.py).  `fetchPage p` models
`get_detailed(..., page=p)` projected to its `timeentries` list
(`report_data.get('timeentries', [])`); `Except.error` models the raised
exception that the loop's `except` clause catches.  The pair returned is
(accumulated entries, number of page requests issued); `fuel` bounds the
iterations so the function is total — `none` arises only when the fuel runs
out before the loop's own `break`s fire. -/
def get_detailed_all_pages_loop {α ε : Type} (fetchPage : Nat → Except ε (List α))
    (pageSize : Nat) :
    Nat → Nat → List α → Nat → Option (List α × Nat)
  | 0, _, _, _ => none
  | fuel + 1, page, acc, requests =>
    match fetchPage page with
    | .error _ => some (acc, requests + 1)
    | .ok timeEntries =>
      if timeEntries.isEmpty then some (acc, requests + 1)
      else if timeEntries.length < pageSize then
        some (acc ++ timeEntries, requests + 1)
      else
        get_detailed_all_pages_loop fetchPage pageSize fuel (page + 1)
          (acc ++ timeEntries) (requests + 1)

/-- `get_detailed_all_pages` (clockify_sdk/models/report.py): run the
pagination loop from page 1 with an empty accumulator. -/
def get_detailed_all_pages {α ε : Type} (fetchPage : Nat → Except ε (List α))
    (pageSize : Nat) (fuel : Nat) : Option (List α × Nat) :=
  get_detailed_all_pages_loop fetchPage pageSize fuel 1 [] 0

/-- Loop invariant lemma: with successful pages `p, p+1, …, p+n-1` all full
(length exactly `pageSize`) and a successful short page at `p + n`, the loop
returns the accumulator extended by the concatenation of pages `p … p+n`,
having issued exactly `n + 1` further requests. -/
theorem get_detailed_all_pages_loop_spec {α ε : Type}
    (fetchPage : Nat → Except ε (List α)) (pages : Nat → List α)
    (pageSize : Nat) (hpos : 0 < pageSize) :
    ∀ (n p : Nat) (acc : List α) (requests fuel : Nat),
      n + 1 ≤ fuel →
      (∀ i, p ≤ i → i < p + n → (pages i).length = pageSize) →
      (∀ i, p ≤ i → i ≤ p + n → fetchPage i = .ok (pages i)) →
      (pages (p + n)).length < pageSize →
      get_detailed_all_pages_loop fetchPage pageSize fuel p acc requests =
        some (acc ++ ((List.range' p (n + 1)).map pages).flatten,
          requests + (n + 1)) := by
  intro n
  induction n with
  | zero =>
    intro p acc requests fuel hfuel _ hfetch hstop
    match fuel, hfuel with
    | f + 1, _ =>
      unfold get_detailed_all_pages_loop
      rw [hfetch p le_rfl (by omega)]
      dsimp only
      by_cases hemp : (pages p).isEmpty
      · have hnil : pages p = [] := List.isEmpty_iff.mp hemp
        simp [hemp, hnil]
      · rw [if_neg hemp]
        rw [if_pos (by simpa using hstop)]
        simp
  | succ n ih =>
    intro p acc requests fuel hfuel hfull hfetch hstop
    match fuel, hfuel with
    | f + 1, hfuel =>
      unfold get_detailed_all_pages_loop
      rw [hfetch p le_rfl (by omega)]
      dsimp only
      have hlen : (pages p).length = pageSize := hfull p le_rfl (by omega)
      have hne : ¬ (pages p).isEmpty := by
        rw [List.isEmpty_iff_length_eq_zero, hlen]
        omega
      rw [if_neg hne, if_neg (by omega)]
      have := ih (p + 1) (acc ++ pages p) (requests + 1) f (by omega)
        (fun i h1 h2 => hfull i (by omega) (by omega))
        (fun i h1 h2 => hfetch i (by omega) (by omega))
        (by have : p + 1 + n = p + (n + 1) := by omega
            rw [this]; exact hstop)
      rw [this, List.range'_succ]
      simp only [List.map_cons, List.flatten_cons, List.append_assoc,
        Option.some.injEq, Prod.mk.injEq]
      exact ⟨rfl, by omega⟩

/-- **C1.**  When every page request up to the first short page succeeds —
pages `1 … k-1` full at `pageSize > 0` entries and page `k` short (empty
included) — `get_detailed_all_pages` returns exactly the concatenation of
pages `1 … k` in fetch order and issues exactly `k` requests, so no request
beyond page `k` is made. -/
theorem get_detailed_all_pages_concat {α ε : Type}
    (fetchPage : Nat → Except ε (List α)) (pages : Nat → List α)
    (pageSize k fuel : Nat) (hpos : 0 < pageSize) (hk : 1 ≤ k)
    (hfuel : k ≤ fuel)
    (hfull : ∀ i, 1 ≤ i → i < k → (pages i).length = pageSize)
    (hfetch : ∀ i, 1 ≤ i → i ≤ k → fetchPage i = .ok (pages i))
    (hstop : (pages k).length < pageSize) :
    get_detailed_all_pages fetchPage pageSize fuel =
      some (((List.range' 1 k).map pages).flatten, k) := by
  unfold get_detailed_all_pages
  have := get_detailed_all_pages_loop_spec fetchPage pages pageSize hpos
    (k - 1) 1 [] 0 fuel (by omega)
    (fun i h1 h2 => hfull i h1 (by omega))
    (fun i h1 h2 => hfetch i h1 (by omega))
    (by have : 1 + (k - 1) = k := by omega
        rw [this]; exact hstop)
  rw [this]
  have hk1 : k - 1 + 1 = k := by omega
  rw [hk1]
  simp

/-- Witness for C1, at the claim's instance: `pageSize = 2`, page 1 =
`[e1, e2]`, page 2 = `[e3]` — the result is exactly `[e1, e2, e3]` after
exactly two requests. -/
theorem get_detailed_all_pages_concat_witness :
    get_detailed_all_pages
      (fun i => (Except.ok (if i = 1 then [10, 20] else if i = 2 then [30]
        else []) : Except Unit (List Nat))) 2 5 = some ([10, 20, 30], 2) := by
  rw [get_detailed_all_pages_concat
    (fun i => (Except.ok (if i = 1 then [10, 20] else if i = 2 then [30]
      else []) : Except Unit (List Nat)))
    (fun i => if i = 1 then [10, 20] else if i = 2 then [30] else [])
    2 2 5 (by decide) (by decide) (by decide)
    (by intro i h1 h2
        have : i = 1 := by omega
        subst this
        rfl)
    (by intro i h1 h2
        rfl)
    (by decide)]
  rfl

/-- **C2 counterexample.**  A backend whose very first page request raises
does *not* propagate the failure: the `try`/`except` of
`get_detailed_all_pages` wraps page 1 as well, so the call returns normally
with the empty list after exactly one request. -/
theorem get_detailed_all_pages_first_page_error_cex :
    get_detailed_all_pages
      (fun _ => (Except.error () : Except Unit (List Nat))) 2 5 =
      some ([], 1) := by
  rfl

/-- Loop invariant lemma for the error path: with successful full pages
`p … p+n-1` and a failing request at page `p + n`, the loop swallows the
error and returns the accumulator extended by pages `p … p+n-1`, having
issued `n + 1` further requests. -/
theorem get_detailed_all_pages_loop_error_spec {α ε : Type}
    (fetchPage : Nat → Except ε (List α)) (pages : Nat → List α)
    (pageSize : Nat) (e : ε) (hpos : 0 < pageSize) :
    ∀ (n p : Nat) (acc : List α) (requests fuel : Nat),
      n + 1 ≤ fuel →
      (∀ i, p ≤ i → i < p + n → (pages i).length = pageSize) →
      (∀ i, p ≤ i → i < p + n → fetchPage i = .ok (pages i)) →
      fetchPage (p + n) = .error e →
      get_detailed_all_pages_loop fetchPage pageSize fuel p acc requests =
        some (acc ++ ((List.range' p n).map pages).flatten,
          requests + (n + 1)) := by
  intro n
  induction n with
  | zero =>
    intro p acc requests fuel hfuel _ _ herr
    match fuel, hfuel with
    | f + 1, _ =>
      unfold get_detailed_all_pages_loop
      rw [show p + 0 = p from rfl] at herr
      rw [herr]
      simp
  | succ n ih =>
    intro p acc requests fuel hfuel hfull hfetch herr
    match fuel, hfuel with
    | f + 1, hfuel =>
      unfold get_detailed_all_pages_loop
      rw [hfetch p le_rfl (by omega)]
      dsimp only
      have hlen : (pages p).length = pageSize := hfull p le_rfl (by omega)
      have hne : ¬ (pages p).isEmpty := by
        rw [List.isEmpty_iff_length_eq_zero, hlen]
        omega
      rw [if_neg hne, if_neg (by omega)]
      have := ih (p + 1) (acc ++ pages p) (requests + 1) f (by omega)
        (fun i h1 h2 => hfull i (by omega) (by omega))
        (fun i h1 h2 => hfetch i (by omega) (by omega))
        (by have : p + 1 + n = p + (n + 1) := by omega
            rw [this]; exact herr)
      rw [this, List.range'_succ]
      simp only [List.map_cons, List.flatten_cons, List.append_assoc,
        Option.some.injEq, Prod.mk.injEq]
      exact ⟨trivial, by omega⟩

/-- **C2** (amended).  An error while fetching any page — the first one
included — is caught: after full successful pages `1 … j` and a failing
request at page `j + 1`, `get_detailed_all_pages` returns the entries
accumulated so far (the empty list when `j = 0`, i.e. when the first page
fails) rather than raising. -/
theorem get_detailed_all_pages_error_swallowed {α ε : Type}
    (fetchPage : Nat → Except ε (List α)) (pages : Nat → List α)
    (pageSize j fuel : Nat) (e : ε) (hpos : 0 < pageSize)
    (hfuel : j + 1 ≤ fuel)
    (hfull : ∀ i, 1 ≤ i → i ≤ j → (pages i).length = pageSize)
    (hfetch : ∀ i, 1 ≤ i → i ≤ j → fetchPage i = .ok (pages i))
    (herr : fetchPage (j + 1) = .error e) :
    get_detailed_all_pages fetchPage pageSize fuel =
      some (((List.range' 1 j).map pages).flatten, j + 1) := by
  unfold get_detailed_all_pages
  have := get_detailed_all_pages_loop_error_spec fetchPage pages pageSize e
    hpos j 1 [] 0 fuel (by omega)
    (fun i h1 h2 => hfull i h1 (by omega))
    (fun i h1 h2 => hfetch i h1 (by omega))
    (by have : 1 + j = j + 1 := by omega
        rw [this]; exact herr)
  rw [this]
  simp

/-- Witness for the amended C2: `pageSize = 2`, page 1 = `[10, 20]` (full),
page 2 raises — the call returns the partial result `[10, 20]` after two
requests. -/
theorem get_detailed_all_pages_error_swallowed_witness :
    get_detailed_all_pages
      (fun i => if i = 1 then Except.ok [10, 20]
        else (Except.error () : Except Unit (List Nat))) 2 5 =
      some ([10, 20], 2) := by
  rw [get_detailed_all_pages_error_swallowed
    (fun i => if i = 1 then Except.ok [10, 20]
      else (Except.error () : Except Unit (List Nat)))
    (fun i => if i = 1 then [10, 20] else [])
    2 1 5 () (by decide) (by omega)
    (by intro i h1 h2
        have : i = 1 := by omega
        subst this
        rfl)
    (by intro i h1 h2
        have : i = 1 := by omega
        subst this
        rfl)
    (by rfl)]
  rfl

end Clockify

namespace Clockify

/-- An HTTP response as seen by `ConnectionManager.request`
(clockify_sdk/connection.py): its status code, the optional `Retry-After`
header, and the decoded body (abstract). -/
structure HttpResponse where
  status : Nat
  retryAfter : Option String := none
  body : String := ""
deriving DecidableEq, Repr

/-- Modelled from the spec: the typed error taxonomy of
`clockify_sdk/exceptions.py`, a module the source tree does not contain
(connection.py imports `APIError`, `AuthenticationError`, `RateLimitError`
and `ResourceNotFoundError` from it; the spec's §7 taxonomy additionally
names `NetworkError`). -/
inductive ClockifyError where
  | authenticationError (msg : String)
  | resourceNotFoundError (msg : String)
  | rateLimitError (msg : String)
  | apiError (msg : String)
  | networkError (msg : String)
deriving DecidableEq, Repr

/-- `ConnectionManager.max_retries` (connection.py): the retry budget
handed to `httpx.HTTPTransport(retries=...)`. -/
def max_retries : Nat := 3

/-- The httpx transport's bounded retry loop: `net i` is the outcome of the
`i`-th network attempt (`Except.error msg` models a network-level
`httpx.RequestError` — no HTTP response obtained).  An attempt that yields
a response, whatever its status, ends the loop; a network failure is
retried while retry budget remains, and the last failure is surfaced.  The
second component counts attempts made. -/
def sendWithRetries (net : Nat → Except String HttpResponse) :
    Nat → Nat → Except String HttpResponse × Nat
  | attempt, 0 => (net attempt, attempt + 1)
  | attempt, budget + 1 =>
    match net attempt with
    | .ok resp => (.ok resp, attempt + 1)
    | .error _ => sendWithRetries net (attempt + 1) budget

/-- `ConnectionManager.request` (connection.py): send with the transport's
retry budget; on a surviving network failure raise `APIError`
(`f"Request failed: {e!s}"`); otherwise `raise_for_status` maps an error
status to the typed taxonomy — 401/403 to `AuthenticationError`, 404 to
`ResourceNotFoundError`, 429 to `RateLimitError` with the `Retry-After`
header defaulting to `"60"`, any other 4xx/5xx to `APIError` — and a
success status returns the body.  The second component is the number of
network attempts made. -/
def connection_request (net : Nat → Except String HttpResponse)
    (url : String) : Except ClockifyError String × Nat :=
  match sendWithRetries net 0 max_retries with
  | (.error msg, n) => (.error (.apiError ("Request failed: " ++ msg)), n)
  | (.ok resp, n) =>
    if resp.status == 401 then
      (.error (.authenticationError "Invalid API key"), n)
    else if resp.status == 403 then
      (.error (.authenticationError "Insufficient permissions"), n)
    else if resp.status == 404 then
      (.error (.resourceNotFoundError ("Resource not found: " ++ url)), n)
    else if resp.status == 429 then
      (.error (.rateLimitError ("Rate limit exceeded. Retry after " ++
        resp.retryAfter.getD "60" ++ " seconds")), n)
    else if 400 ≤ resp.status ∧ resp.status ≤ 599 then
      (.error (.apiError ("API request failed: status " ++
        toString resp.status)), n)
    else
      (.ok resp.body, n)

end Clockify

namespace Clockify

/-- **C9 counterexample.**  A connection that fails at the network level on
every attempt is retried the transport's 3 times and then surfaces an
`APIError` — not the `NetworkError` the claim names (no code path in
`ConnectionManager.request` constructs a `NetworkError`). -/
theorem connection_request_network_failure_cex :
    connection_request (fun _ => Except.error "connection refused") "w" =
      (Except.error (ClockifyError.apiError
        "Request failed: connection refused"), 4) := by
  rfl

/-- **C9** (amended).  A request failing at the network level on every
attempt is retried up to `max_retries = 3` times (four attempts in all) and
then surfaces an `APIError`; once any attempt obtains an HTTP response —
4xx/5xx included — no further attempt is made. -/
theorem connection_request_retry_policy
    (net net2 : Nat → Except String HttpResponse) (msgs : Nat → String)
    (resp : HttpResponse) (url url2 : String)
    (hfail : ∀ i, i ≤ max_retries → net i = .error (msgs i))
    (hresp : net2 0 = .ok resp) :
    connection_request net url =
      (.error (.apiError ("Request failed: " ++ msgs max_retries)), 4) ∧
    (connection_request net2 url2).2 = 1 := by
  constructor
  · unfold connection_request max_retries
    unfold sendWithRetries
    rw [hfail 0 (by decide)]
    unfold sendWithRetries
    rw [hfail 1 (by decide)]
    unfold sendWithRetries
    rw [hfail 2 (by decide)]
    unfold sendWithRetries
    rw [hfail 3 (by decide)]
  · unfold connection_request max_retries
    unfold sendWithRetries
    rw [hresp]
    dsimp only
    by_cases h1 : resp.status == 401
    · simp [h1]
    · by_cases h2 : resp.status == 403
      · simp [h1, h2]
      · by_cases h3 : resp.status == 404
        · simp [h1, h2, h3]
        · by_cases h4 : resp.status == 429
          · simp [h1, h2, h3, h4]
          · by_cases h5 : 400 ≤ resp.status ∧ resp.status ≤ 599
            · simp [h1, h2, h3, h4, h5]
            · simp [h1, h2, h3, h4, h5]

/-- Witness for the amended C9: an always-failing connection surfaces
`APIError` after 4 attempts, and a connection answering 500 on its first
attempt is not retried. -/
theorem connection_request_retry_policy_witness :
    connection_request (fun _ => Except.error "boom") "a" =
      (Except.error (ClockifyError.apiError "Request failed: boom"), 4) ∧
    (connection_request (fun _ => Except.ok { status := 500 }) "b").2 = 1 := by
  have h := connection_request_retry_policy
    (fun _ => Except.error "boom") (fun _ => Except.ok { status := 500 })
    (fun _ => "boom") { status := 500 } "a" "b"
    (fun i _ => rfl) rfl
  exact h

end Clockify

namespace Clockify

/-- Insert-or-replace on an association list: `dict[key] = value`
(existing key keeps its position, new key appends). -/
def alistInsert {β : Type} : List (String × β) → String → β → List (String × β)
  | [], k, v => [(k, v)]
  | (k', v') :: rest, k, v =>
    if k' = k then (k', v) :: rest else (k', v') :: alistInsert rest k v

/-- Modify the value at a key in place; no-op when the key is absent. -/
def alistModify {β : Type} : List (String × β) → String → (β → β) → List (String × β)
  | [], _, _ => []
  | (k', v') :: rest, k, f =>
    if k' = k then (k', f v') :: rest else (k', v') :: alistModify rest k f

/-- `if key not in dict: dict[key] = default` — append a default when the
key is absent, leave the list unchanged otherwise. -/
def alistEnsure {β : Type} (m : List (String × β)) (k : String) (default : β) :
    List (String × β) :=
  match alistLookup m k with
  | some _ => m
  | none => m ++ [(k, default)]

/-- `if key not in dict: dict[key] = 0` followed by `dict[key] += v`:
increment the value at a key, appending it at `v` when absent. -/
def alistBump : List (String × Int) → String → Int → List (String × Int)
  | [], k, v => [(k, v)]
  | (k', v') :: rest, k, v =>
    if k' = k then (k', v' + v) :: rest else (k', v') :: alistBump rest k v

/-- The sum of an integer-valued dict's values. -/
def alistSum (m : List (String × Int)) : Int :=
  (m.map (fun p => p.2)).sum

/-- Python `weekday()` of the civil date holding instant `t` (epoch
seconds, UTC): Monday = 0 … Sunday = 6 (1970-01-01 was a Thursday). -/
def weekdayIndex (t : Int) : Nat :=
  ((Int.fdiv t 86400 + 3) % 7).toNat

/-- The English day names `strftime('%A')` produces, Monday first. -/
def dayNames : List String :=
  ["Monday", "Tuesday", "Wednesday", "Thursday", "Friday", "Saturday",
    "Sunday"]

/-- `strftime('%A')` of the instant `t`. -/
def dayName (t : Int) : String :=
  dayNames.getD (weekdayIndex t) ""

/-- `_get_week_start` (project_detail.py): `date − weekday(date)` days —
the Monday of the instant's week, keeping the time of day. -/
def getWeekStart (t : Int) : Int :=
  t - (weekdayIndex t : Int) * 86400

/-- Proleptic-Gregorian civil date (year, month, day) of a count of days
since 1970-01-01 (the standard era-based conversion `datetime.date` also
implements). -/
def civilFromDays (z0 : Int) : Int × Nat × Nat :=
  let z := z0 + 719468
  let era := Int.fdiv z 146097
  let doe := (z - era * 146097).toNat
  let yoe := (doe - doe / 1460 + doe / 36524 - doe / 146096) / 365
  let doy := doe - (365 * yoe + yoe / 4 - yoe / 100)
  let mp := (5 * doy + 2) / 153
  let d := doy - (153 * mp + 2) / 5 + 1
  let m := if mp < 10 then mp + 3 else mp - 9
  ((era * 400 : Int) + yoe + (if m ≤ 2 then 1 else 0), m, d)

/-- Zero-pad a number to two digits, as `strftime('%m')` / `%d` do. -/
def pad2 (n : Nat) : String :=
  if n < 10 then "0" ++ toString n else toString n

/-- Zero-pad a year to four digits, as `strftime('%Y')` does for the years
`datetime` supports (1 … 9999). -/
def pad4 (y : Int) : String :=
  if y < 10 then "000" ++ toString y
  else if y < 100 then "00" ++ toString y
  else if y < 1000 then "0" ++ toString y
  else toString y

/-- `strftime('%Y-%m-%d')` of the instant `t` (epoch seconds, UTC). -/
def formatYMD (t : Int) : String :=
  let c := civilFromDays (Int.fdiv t 86400)
  pad4 c.1 ++ "-" ++ pad2 c.2.1 ++ "-" ++ pad2 c.2.2

/-- The per-week bucket key of `_process_monthly_data`:
`week_start.strftime('%Y-%m-%d')` of `_get_week_start(date)`. -/
def weekKey (t : Int) : String :=
  formatYMD (getWeekStart t)

/-- `_get_task_name` (project_detail.py): `f'Task {task_id[:8]}'`. -/
def getTaskName (taskId : String) : String :=
  "Task " ++ taskId.take 8

/-- One element of the `project_users` list: the `userId` and `name` keys
of the membership record (`none` for absent / falsy values). -/
structure ProjectUser where
  userId : Option String := none
  name : Option String := none
deriving DecidableEq, Repr

/-- The `user_info_map` built at the top of `_process_weekly_data` /
`_process_monthly_data`: index the project users by truthy `userId`,
later records overwriting earlier ones. -/
def buildUserInfoMap (projectUsers : List ProjectUser) :
    List (String × ProjectUser) :=
  projectUsers.foldl
    (fun m u =>
      match u.userId with
      | some uid => if uid.isEmpty then m else alistInsert m uid u
      | none => m)
    []

/-- The user-name resolution both grouping functions perform:
`user_info_map.get(user_id, {})`, falling back to the all-users lookup
(an external collaborator, passed in as `allUsersName`) when the map has
no record, and to `f'User {user_id[:8]}'` when the record lacks a name. -/
def resolveUserName (userInfoMap : List (String × ProjectUser))
    (allUsersName : String → String) (uid : String) : String :=
  match alistLookup userInfoMap uid with
  | none => allUsersName uid
  | some info => info.name.getD ("User " ++ uid.take 8)

/-- A value of `_process_weekly_data`'s `team_data` dict: total seconds,
per-task seconds, per-day seconds, per-day per-task seconds, display
name. -/
structure WeeklyUserData where
  total_seconds : Int
  tasks : List (String × Int)
  daily_hours : List (String × Int)
  daily_tasks : List (String × List (String × Int))
  user_name : String
deriving DecidableEq, Repr

/-- The loop body of `_process_weekly_data` for one entry.  Entries with a
falsy `userId` are skipped; a truthy but malformed `timeInterval.start`
makes the uncaught `_parse_date` call raise (`Except.error`). -/
def processWeeklyEntry (allUsersName : String → String)
    (userInfoMap : List (String × ProjectUser))
    (teamData : List (String × WeeklyUserData)) (e : TimeEntry) :
    Except Unit (List (String × WeeklyUserData)) :=
  match e.userId with
  | none => .ok teamData
  | some uid =>
    if uid.isEmpty then .ok teamData
    else
      let td0 :=
        if (alistLookup teamData uid).isSome then teamData
        else teamData ++ [(uid,
          { total_seconds := 0, tasks := [], daily_hours := [],
            daily_tasks := [],
            user_name := resolveUserName userInfoMap allUsersName uid })]
      let dur := calculateDuration e
      let td1 := alistModify td0 uid
        (fun b => { b with total_seconds := b.total_seconds + dur })
      let td2 :=
        match e.taskId with
        | some tid =>
          if tid.isEmpty then td1
          else alistModify td1 uid
            (fun b => { b with tasks := alistBump b.tasks (getTaskName tid) dur })
        | none => td1
      match e.start with
      | none => .ok td2
      | some .malformed => .error ()
      | some (.valid t) =>
        let day := dayName t
        let td3 := alistModify td2 uid
          (fun b => { b with daily_hours := alistBump b.daily_hours day dur })
        let td4 := alistModify td3 uid
          (fun b => { b with daily_tasks := alistEnsure b.daily_tasks day [] })
        let td5 :=
          match e.taskId with
          | some tid =>
            if tid.isEmpty then td4
            else alistModify td4 uid (fun b =>
              let dt := alistModify b.daily_tasks day
                (fun inner => alistBump inner (getTaskName tid) dur)
              { b with daily_tasks := dt })
          | none => td4
        .ok td5

/-- `_process_weekly_data` (project_detail.py): fold the loop body over the
entries, starting from an empty `team_data`. -/
def process_weekly_data (allUsersName : String → String)
    (timeEntries : List TimeEntry) (projectUsers : List ProjectUser) :
    Except Unit (List (String × WeeklyUserData)) :=
  timeEntries.foldlM
    (processWeeklyEntry allUsersName (buildUserInfoMap projectUsers)) []

/-- A value of `_process_monthly_data`'s `team_data` dict: total seconds,
billable seconds, per-week seconds, display name. -/
structure MonthlyUserData where
  total_seconds : Int
  billable_seconds : Int
  weekly_totals : List (String × Int)
  user_name : String
deriving DecidableEq, Repr

/-- The loop body of `_process_monthly_data` for one entry. -/
def processMonthlyEntry (allUsersName : String → String)
    (userInfoMap : List (String × ProjectUser))
    (teamData : List (String × MonthlyUserData)) (e : TimeEntry) :
    Except Unit (List (String × MonthlyUserData)) :=
  match e.userId with
  | none => .ok teamData
  | some uid =>
    if uid.isEmpty then .ok teamData
    else
      let td0 :=
        if (alistLookup teamData uid).isSome then teamData
        else teamData ++ [(uid,
          { total_seconds := 0, billable_seconds := 0, weekly_totals := [],
            user_name := resolveUserName userInfoMap allUsersName uid })]
      let dur := calculateDuration e
      let td1 := alistModify td0 uid
        (fun b => { b with total_seconds := b.total_seconds + dur })
      let td2 :=
        if e.billable then
          alistModify td1 uid
            (fun b => { b with billable_seconds := b.billable_seconds + dur })
        else td1
      match e.start with
      | none => .ok td2
      | some .malformed => .error ()
      | some (.valid t) =>
        .ok (alistModify td2 uid
          (fun b => { b with weekly_totals := alistBump b.weekly_totals (weekKey t) dur }))

/-- `_process_monthly_data` (project_detail.py): fold the loop body over
the entries, starting from an empty `team_data`. -/
def process_monthly_data (allUsersName : String → String)
    (timeEntries : List TimeEntry) (projectUsers : List ProjectUser) :
    Except Unit (List (String × MonthlyUserData)) :=
  timeEntries.foldlM
    (processMonthlyEntry allUsersName (buildUserInfoMap projectUsers)) []

/-- An entry "carries a user identifier" when its `userId` is truthy. -/
def hasUser (e : TimeEntry) : Bool :=
  truthyStr e.userId

/-- The sum of all per-user `total_seconds` of a weekly `team_data`. -/
def weeklyTotalsSum (td : List (String × WeeklyUserData)) : Int :=
  (td.map (fun p => p.2.total_seconds)).sum

end Clockify

namespace Clockify

theorem alistLookup_modify {β : Type} (td : List (String × β)) (k : String)
    (f : β → β) (k' : String) :
    alistLookup (alistModify td k f) k' =
      if k' = k then Option.map f (alistLookup td k) else alistLookup td k' := by
  induction td with
  | nil => by_cases h : k' = k <;> simp [alistModify, alistLookup, h]
  | cons hd tl ih =>
    obtain ⟨k0, v⟩ := hd
    by_cases h0 : k0 = k
    · subst h0
      by_cases h1 : k0 = k'
      · subst h1
        simp [alistModify, alistLookup]
      · simp [alistModify, alistLookup, h1, Ne.symm h1]
    · by_cases h1 : k0 = k'
      · have hne : k' ≠ k := fun hh => h0 (h1.trans hh)
        simp [alistModify, alistLookup, h0, h1, hne]
      · simp [alistModify, alistLookup, h0, h1, ih]

theorem alistKeys_modify {β : Type} (td : List (String × β)) (k : String)
    (f : β → β) :
    (alistModify td k f).map Prod.fst = td.map Prod.fst := by
  induction td with
  | nil => rfl
  | cons hd tl ih =>
    obtain ⟨k0, v⟩ := hd
    by_cases h0 : k0 = k <;> simp [alistModify, h0, ih]

theorem alistLookup_append_of_none {β : Type} (xs ys : List (String × β))
    (k : String) (h : alistLookup xs k = none) :
    alistLookup (xs ++ ys) k = alistLookup ys k := by
  induction xs with
  | nil => rfl
  | cons hd tl ih =>
    obtain ⟨k0, v⟩ := hd
    by_cases h0 : k0 = k
    · simp [alistLookup, h0] at h
    · simp [alistLookup, h0] at h ⊢
      exact ih h

theorem alistLookup_append_of_some {β : Type} (xs ys : List (String × β))
    (k : String) (v : β) (h : alistLookup xs k = some v) :
    alistLookup (xs ++ ys) k = some v := by
  induction xs with
  | nil => simp [alistLookup] at h
  | cons hd tl ih =>
    obtain ⟨k0, v0⟩ := hd
    by_cases h0 : k0 = k
    · simp [alistLookup, h0] at h ⊢
      exact h
    · simp [alistLookup, h0] at h ⊢
      exact ih h

theorem alistLookup_none_iff {β : Type} (td : List (String × β)) (k : String) :
    alistLookup td k = none ↔ k ∉ td.map Prod.fst := by
  induction td with
  | nil => simp [alistLookup]
  | cons hd tl ih =>
    obtain ⟨k0, v⟩ := hd
    by_cases h0 : k0 = k
    · subst h0
      simp [alistLookup]
    · simp [alistLookup, h0, ih, Ne.symm h0]

theorem alistLookup_mem {β : Type} (td : List (String × β)) (k : String)
    (v : β) (h : alistLookup td k = some v) : (k, v) ∈ td := by
  induction td with
  | nil => simp [alistLookup] at h
  | cons hd tl ih =>
    obtain ⟨k0, v0⟩ := hd
    by_cases h0 : k0 = k
    · subst h0
      simp [alistLookup] at h
      simp [h]
    · simp [alistLookup, h0] at h
      simp [ih h]

theorem alistLookup_of_mem_nodup {β : Type} (td : List (String × β))
    (k : String) (v : β) (hnd : (td.map Prod.fst).Nodup) (hmem : (k, v) ∈ td) :
    alistLookup td k = some v := by
  induction td with
  | nil => simp at hmem
  | cons hd tl ih =>
    obtain ⟨k0, v0⟩ := hd
    simp at hnd
    rcases List.mem_cons.mp hmem with h | h
    · injection h with h1 h2
      subst h1
      subst h2
      simp [alistLookup]
    · by_cases h0 : k0 = k
      · subst h0
        exact absurd h (hnd.1 v)
      · simp [alistLookup, h0]
        exact ih hnd.2 h

theorem alistSum_bump (m : List (String × Int)) (k : String) (v : Int) :
    alistSum (alistBump m k v) = alistSum m + v := by
  induction m with
  | nil => simp [alistBump, alistSum]
  | cons hd tl ih =>
    obtain ⟨k0, v0⟩ := hd
    by_cases h0 : k0 = k
    · simp [alistBump, h0, alistSum]
      ring
    · simp [alistBump, h0, alistSum] at ih ⊢
      rw [ih]
      ring

theorem weeklyTotalsSum_modify (td : List (String × WeeklyUserData))
    (k : String) (f : WeeklyUserData → WeeklyUserData) :
    weeklyTotalsSum (alistModify td k f) =
      weeklyTotalsSum td +
        (match alistLookup td k with
          | some b => (f b).total_seconds - b.total_seconds
          | none => 0) := by
  induction td with
  | nil => simp [alistModify, alistLookup, weeklyTotalsSum]
  | cons hd tl ih =>
    obtain ⟨k0, v⟩ := hd
    by_cases h0 : k0 = k
    · simp [alistModify, alistLookup, h0, weeklyTotalsSum]
      ring
    · simp [alistModify, alistLookup, h0, weeklyTotalsSum] at ih ⊢
      rw [ih]
      rcases alistLookup tl k with _ | b <;> ring

theorem weeklyTotalsSum_append (td : List (String × WeeklyUserData))
    (k : String) (b : WeeklyUserData) :
    weeklyTotalsSum (td ++ [(k, b)]) = weeklyTotalsSum td + b.total_seconds := by
  simp [weeklyTotalsSum]

end Clockify

namespace Clockify

theorem weeklyTotalsSum_mod_total (td : List (String × WeeklyUserData))
    (k : String) (c : Int) :
    weeklyTotalsSum (alistModify td k
      (fun b => { b with total_seconds := b.total_seconds + c })) =
      weeklyTotalsSum td + (if (alistLookup td k).isSome then c else 0) := by
  rw [weeklyTotalsSum_modify]
  rcases h : alistLookup td k with _ | b
  · simp
  · simp

theorem weeklyTotalsSum_mod_tasks (td : List (String × WeeklyUserData))
    (k : String) (f : WeeklyUserData → List (String × Int)) :
    weeklyTotalsSum (alistModify td k (fun b => { b with tasks := f b })) =
      weeklyTotalsSum td := by
  rw [weeklyTotalsSum_modify]
  rcases alistLookup td k with _ | b <;> simp

theorem weeklyTotalsSum_mod_daily (td : List (String × WeeklyUserData))
    (k : String) (f : WeeklyUserData → List (String × Int)) :
    weeklyTotalsSum (alistModify td k (fun b => { b with daily_hours := f b })) =
      weeklyTotalsSum td := by
  rw [weeklyTotalsSum_modify]
  rcases alistLookup td k with _ | b <;> simp

theorem weeklyTotalsSum_mod_dailyTasks (td : List (String × WeeklyUserData))
    (k : String) (f : WeeklyUserData → List (String × List (String × Int))) :
    weeklyTotalsSum (alistModify td k (fun b => { b with daily_tasks := f b })) =
      weeklyTotalsSum td := by
  rw [weeklyTotalsSum_modify]
  rcases alistLookup td k with _ | b <;> simp

/-- An entry with a falsy `userId` is skipped by the weekly loop body. -/
theorem processWeeklyEntry_skip (nameF : String → String)
    (m : List (String × ProjectUser)) (td : List (String × WeeklyUserData))
    (e : TimeEntry) (h : hasUser e = false) :
    processWeeklyEntry nameF m td e = .ok td := by
  rcases hu : e.userId with _ | uid
  · unfold processWeeklyEntry
    rw [hu]
  · have hemp : uid.isEmpty = true := by
      simp [hasUser, truthyStr, hu] at h
      exact h
    unfold processWeeklyEntry
    rw [hu]
    simp [hemp]

end Clockify

namespace Clockify

/-- The weekly loop body, when it succeeds on an entry with a truthy
`userId`, adds exactly the entry's resolved duration to the grand total of
`total_seconds` values. -/
theorem processWeeklyEntry_sum (nameF : String → String)
    (m : List (String × ProjectUser)) (td td' : List (String × WeeklyUserData))
    (e : TimeEntry) (huser : hasUser e = true)
    (hok : processWeeklyEntry nameF m td e = .ok td') :
    weeklyTotalsSum td' = weeklyTotalsSum td + calculateDuration e := by
  rcases hu : e.userId with _ | uid
  · simp [hasUser, truthyStr, hu] at huser
  · have hne : uid.isEmpty = false := by
      simp [hasUser, truthyStr, hu] at huser
      simpa using huser
    have hsum0 : weeklyTotalsSum (if (alistLookup td uid).isSome then td
        else td ++ [(uid,
          { total_seconds := 0, tasks := [], daily_hours := [],
            daily_tasks := [],
            user_name := resolveUserName m nameF uid })]) =
        weeklyTotalsSum td := by
      by_cases hl : (alistLookup td uid).isSome
      · rw [if_pos hl]
      · rw [if_neg hl, weeklyTotalsSum_append]
        simp
    have hlook0 : (alistLookup (if (alistLookup td uid).isSome then td
        else td ++ [(uid,
          { total_seconds := 0, tasks := [], daily_hours := [],
            daily_tasks := [],
            user_name := resolveUserName m nameF uid })])
        uid).isSome = true := by
      by_cases hl : (alistLookup td uid).isSome
      · rw [if_pos hl]
        exact hl
      · rw [if_neg hl]
        have hnone : alistLookup td uid = none := by
          rcases h : alistLookup td uid with _ | b
          · rfl
          · rw [h] at hl
            simp at hl
        rw [alistLookup_append_of_none td _ uid hnone]
        simp [alistLookup]
    rcases hs : e.start with _ | ts
    · rcases htk : e.taskId with _ | tid
      · simp only [processWeeklyEntry, hu, hne, Bool.false_eq_true, if_false,
          hs, htk, Except.ok.injEq] at hok
        rw [← hok, weeklyTotalsSum_mod_total]
        rw [hlook0]
        simp [hsum0]
      · by_cases hte : tid.isEmpty
        · simp only [processWeeklyEntry, hu, hne, Bool.false_eq_true, if_false,
            hs, htk, hte, if_true, Except.ok.injEq] at hok
          rw [← hok, weeklyTotalsSum_mod_total]
          rw [hlook0]
          simp [hsum0]
        · simp only [processWeeklyEntry, hu, hne, Bool.false_eq_true, if_false,
            hs, htk, hte, if_false, Except.ok.injEq] at hok
          rw [← hok, weeklyTotalsSum_mod_tasks, weeklyTotalsSum_mod_total]
          rw [hlook0]
          simp [hsum0]
    · cases ts with
      | malformed =>
        simp only [processWeeklyEntry, hu, hne, Bool.false_eq_true, if_false,
          hs] at hok
        exact absurd hok (by simp)
      | valid t =>
        rcases htk : e.taskId with _ | tid
        · simp only [processWeeklyEntry, hu, hne, Bool.false_eq_true, if_false,
            hs, htk, Except.ok.injEq] at hok
          rw [← hok, weeklyTotalsSum_mod_dailyTasks, weeklyTotalsSum_mod_daily,
            weeklyTotalsSum_mod_total]
          rw [hlook0]
          simp [hsum0]
        · by_cases hte : tid.isEmpty
          · simp only [processWeeklyEntry, hu, hne, Bool.false_eq_true,
              if_false, hs, htk, hte, if_true, Except.ok.injEq] at hok
            rw [← hok, weeklyTotalsSum_mod_dailyTasks,
              weeklyTotalsSum_mod_daily, weeklyTotalsSum_mod_total]
            rw [hlook0]
            simp [hsum0]
          · simp only [processWeeklyEntry, hu, hne, Bool.false_eq_true,
              if_false, hs, htk, hte, if_false, Except.ok.injEq] at hok
            rw [← hok, weeklyTotalsSum_mod_dailyTasks,
              weeklyTotalsSum_mod_dailyTasks, weeklyTotalsSum_mod_daily,
              weeklyTotalsSum_mod_tasks, weeklyTotalsSum_mod_total]
            rw [hlook0]
            simp [hsum0]

end Clockify

namespace Clockify

theorem processWeekly_fold_sum (nameF : String → String)
    (m : List (String × ProjectUser)) :
    ∀ (es : List TimeEntry) (td td' : List (String × WeeklyUserData)),
      es.foldlM (processWeeklyEntry nameF m) td = .ok td' →
      weeklyTotalsSum td' = weeklyTotalsSum td +
        ((es.filter (fun e => hasUser e)).map calculateDuration).sum := by
  intro es
  induction es with
  | nil =>
    intro td td' hok
    simp only [List.foldlM_nil, pure, Except.pure, Except.ok.injEq] at hok
    simp [← hok]
  | cons e es ih =>
    intro td td' hok
    rw [List.foldlM_cons] at hok
    rcases hstep : processWeeklyEntry nameF m td e with err | td1
    · rw [hstep] at hok
      simp [Bind.bind, Except.bind] at hok
    · rw [hstep] at hok
      simp only [Bind.bind, Except.bind] at hok
      by_cases hc : hasUser e
      · have h1 := processWeeklyEntry_sum nameF m td td1 e hc hstep
        have h2 := ih td1 td' hok
        rw [h2, h1]
        simp only [List.filter_cons, hc, if_true, List.map_cons, List.sum_cons]
        ring
      · have hskip := processWeeklyEntry_skip nameF m td e
          (by simpa using hc)
        rw [hskip] at hstep
        injection hstep with hstep
        subst hstep
        have h2 := ih td td' hok
        rw [h2]
        simp only [List.filter_cons]
        simp [hc]

theorem processWeekly_fold_filter (nameF : String → String)
    (m : List (String × ProjectUser)) :
    ∀ (es : List TimeEntry) (td : List (String × WeeklyUserData)),
      es.foldlM (processWeeklyEntry nameF m) td =
        (es.filter (fun e => hasUser e)).foldlM
          (processWeeklyEntry nameF m) td := by
  intro es
  induction es with
  | nil => intro td; rfl
  | cons e es ih =>
    intro td
    by_cases hc : hasUser e
    · simp only [List.filter_cons, hc, if_true, List.foldlM_cons]
      rcases processWeeklyEntry nameF m td e with err | td1
      · rfl
      · simp only [Bind.bind, Except.bind]
        exact ih td1
    · have hskip := processWeeklyEntry_skip nameF m td e (by simpa using hc)
      simp only [List.filter_cons, hc, Bool.false_eq_true, if_false,
        List.foldlM_cons, hskip, Bind.bind, Except.bind]
      exact ih td

/-- **C3.**  Whenever `_process_weekly_data` succeeds, the sum over all
users of the bucket's `total_seconds` equals the sum of
`_calculate_duration` over exactly the entries that carry a (truthy) user
identifier, and grouping the sequence equals grouping with the
user-identifier-less entries removed — such entries contribute to no
bucket of any user, neither totals nor task, daily or weekly mappings. -/
theorem process_weekly_data_totals (nameF : String → String)
    (es : List TimeEntry) (ps : List ProjectUser)
    (td : List (String × WeeklyUserData))
    (hok : process_weekly_data nameF es ps = .ok td) :
    weeklyTotalsSum td =
      ((es.filter (fun e => hasUser e)).map calculateDuration).sum ∧
    process_weekly_data nameF es ps =
      process_weekly_data nameF (es.filter (fun e => hasUser e)) ps := by
  constructor
  · have h := processWeekly_fold_sum nameF (buildUserInfoMap ps) es [] td hok
    simpa [weeklyTotalsSum] using h
  · unfold process_weekly_data
    exact processWeekly_fold_filter nameF (buildUserInfoMap ps) es []

end Clockify

namespace Clockify

/-- Witness for C3: a three-entry sequence — one entry without a user, one
explicit-duration entry for `u1`, one interval entry for `u2` — groups to
totals summing to 1800 + 3600 = 5400, exactly the duration sum over the
two user-carrying entries, and grouping ignores the user-less entry. -/
theorem process_weekly_data_totals_witness :
    weeklyTotalsSum
        [("u1",
          { total_seconds := 1800, tasks := [], daily_hours := [],
            daily_tasks := [], user_name := "x" }),
         ("u2",
          { total_seconds := 3600, tasks := [],
            daily_hours := [("Thursday", 3600)],
            daily_tasks := [("Thursday", [])], user_name := "x" })] =
      ((([{ userId := none, duration := some 500 },
          { userId := some "u1", duration := some 1800 },
          { userId := some "u2", start := some (.valid 0),
            stop := some (.valid 3600) }] : List TimeEntry).filter
        (fun e => hasUser e)).map calculateDuration).sum ∧
    process_weekly_data (fun _ => "x")
        [{ userId := none, duration := some 500 },
         { userId := some "u1", duration := some 1800 },
         { userId := some "u2", start := some (.valid 0),
           stop := some (.valid 3600) }] [] =
      process_weekly_data (fun _ => "x")
        (([{ userId := none, duration := some 500 },
          { userId := some "u1", duration := some 1800 },
          { userId := some "u2", start := some (.valid 0),
            stop := some (.valid 3600) }] : List TimeEntry).filter
          (fun e => hasUser e)) [] :=
  process_weekly_data_totals (fun _ => "x")
    [{ userId := none, duration := some 500 },
     { userId := some "u1", duration := some 1800 },
     { userId := some "u2", start := some (.valid 0),
       stop := some (.valid 3600) }] []
    [("u1",
      { total_seconds := 1800, tasks := [], daily_hours := [],
        daily_tasks := [], user_name := "x" }),
     ("u2",
      { total_seconds := 3600, tasks := [],
        daily_hours := [("Thursday", 3600)],
        daily_tasks := [("Thursday", [])], user_name := "x" })]
    rfl

end Clockify

namespace Clockify

theorem alistLookup_append_single_ne {β : Type} (td : List (String × β))
    (k0 : String) (v : β) (k : String) (hk : k ≠ k0) :
    alistLookup (td ++ [(k0, v)]) k = alistLookup td k := by
  rcases h : alistLookup td k with _ | b
  · rw [alistLookup_append_of_none td _ k h]
    simp [alistLookup, Ne.symm hk]
  · exact alistLookup_append_of_some td _ k b h

/-- An entry with a falsy `userId` is skipped by the monthly loop body. -/
theorem processMonthlyEntry_skip (nameF : String → String)
    (m : List (String × ProjectUser)) (td : List (String × MonthlyUserData))
    (e : TimeEntry) (h : hasUser e = false) :
    processMonthlyEntry nameF m td e = .ok td := by
  rcases hu : e.userId with _ | uid
  · unfold processMonthlyEntry
    rw [hu]
  · have hemp : uid.isEmpty = true := by
      simp [hasUser, truthyStr, hu] at h
      exact h
    unfold processMonthlyEntry
    rw [hu]
    simp [hemp]

theorem alistLookup_modify_self {β : Type} (td : List (String × β))
    (k : String) (f : β → β) :
    alistLookup (alistModify td k f) k = Option.map f (alistLookup td k) := by
  rw [alistLookup_modify, if_pos rfl]

theorem alistLookup_modify_ne {β : Type} (td : List (String × β))
    (k : String) (f : β → β) (k' : String) (hk : k' ≠ k) :
    alistLookup (alistModify td k f) k' = alistLookup td k' := by
  rw [alistLookup_modify, if_neg hk]

/-- The weekly loop body preserves the per-bucket invariant "sum of
`daily_hours` values = `total_seconds`" together with key uniqueness,
provided the entry (when grouped at all) carries a valid start. -/
theorem processWeeklyEntry_daily_inv (nameF : String → String)
    (m : List (String × ProjectUser)) (td td' : List (String × WeeklyUserData))
    (e : TimeEntry)
    (hstart : hasUser e = true → ∃ t, e.start = some (Ts.valid t))
    (hok : processWeeklyEntry nameF m td e = .ok td')
    (hnd : (td.map Prod.fst).Nodup)
    (hinv : ∀ k b, alistLookup td k = some b →
      alistSum b.daily_hours = b.total_seconds) :
    (td'.map Prod.fst).Nodup ∧
    ∀ k b, alistLookup td' k = some b →
      alistSum b.daily_hours = b.total_seconds := by
  by_cases hu : hasUser e
  · obtain ⟨t, hs⟩ := hstart hu
    rcases huid : e.userId with _ | uid
    · simp [hasUser, truthyStr, huid] at hu
    · have hne : uid.isEmpty = false := by
        simp [hasUser, truthyStr, huid] at hu
        simpa using hu
      have hA_nd : ((if (alistLookup td uid).isSome then td
          else td ++ [(uid,
            { total_seconds := 0, tasks := [], daily_hours := [],
              daily_tasks := [],
              user_name := resolveUserName m nameF uid })]).map Prod.fst).Nodup := by
        by_cases hl : (alistLookup td uid).isSome
        · rw [if_pos hl]
          exact hnd
        · rw [if_neg hl]
          have hnone : alistLookup td uid = none := by
            rcases h : alistLookup td uid with _ | b
            · rfl
            · rw [h] at hl
              simp at hl
          have hmem := (alistLookup_none_iff td uid).mp hnone
          simp [List.nodup_append, hnd, hmem]
      have hA_uid : ∃ b0, alistLookup (if (alistLookup td uid).isSome then td
          else td ++ [(uid,
            { total_seconds := 0, tasks := [], daily_hours := [],
              daily_tasks := [],
              user_name := resolveUserName m nameF uid })]) uid = some b0 ∧
          alistSum b0.daily_hours = b0.total_seconds := by
        by_cases hl : (alistLookup td uid).isSome
        · rw [if_pos hl]
          rcases h : alistLookup td uid with _ | b0
          · rw [h] at hl
            simp at hl
          · exact ⟨b0, rfl, hinv uid b0 h⟩
        · rw [if_neg hl]
          have hnone : alistLookup td uid = none := by
            rcases h : alistLookup td uid with _ | b
            · rfl
            · rw [h] at hl
              simp at hl
          refine ⟨{ total_seconds := 0, tasks := [], daily_hours := [],
                    daily_tasks := [],
                    user_name := resolveUserName m nameF uid }, ?_, ?_⟩
          · rw [alistLookup_append_of_none td _ uid hnone]
            simp [alistLookup]
          · simp [alistSum]
      have hA_ne : ∀ k, k ≠ uid →
          alistLookup (if (alistLookup td uid).isSome then td
            else td ++ [(uid,
              { total_seconds := 0, tasks := [], daily_hours := [],
                daily_tasks := [],
                user_name := resolveUserName m nameF uid })]) k =
            alistLookup td k := by
        intro k hk
        by_cases hl : (alistLookup td uid).isSome
        · rw [if_pos hl]
        · rw [if_neg hl]
          exact alistLookup_append_single_ne td uid _ k hk
      obtain ⟨b0, hb0, hb0inv⟩ := hA_uid
      rcases htk : e.taskId with _ | tid
      · simp only [processWeeklyEntry, huid, hne, Bool.false_eq_true, if_false,
          hs, htk, Except.ok.injEq] at hok
        rw [← hok]
        constructor
        · simpa [alistKeys_modify] using hA_nd
        · intro k b hkb
          by_cases hk : k = uid
          · subst hk
            rw [alistLookup_modify_self, alistLookup_modify_self,
              alistLookup_modify_self, hb0] at hkb
            simp only [Option.map_some'] at hkb
            injection hkb with hkb
            subst hkb
            simp [alistSum_bump, hb0inv]
          · rw [alistLookup_modify_ne _ _ _ _ hk,
              alistLookup_modify_ne _ _ _ _ hk,
              alistLookup_modify_ne _ _ _ _ hk, hA_ne k hk] at hkb
            exact hinv k b hkb
      · by_cases hte : tid.isEmpty
        · simp only [processWeeklyEntry, huid, hne, Bool.false_eq_true,
            if_false, hs, htk, hte, if_true, Except.ok.injEq] at hok
          rw [← hok]
          constructor
          · simpa [alistKeys_modify] using hA_nd
          · intro k b hkb
            by_cases hk : k = uid
            · subst hk
              rw [alistLookup_modify_self, alistLookup_modify_self,
                alistLookup_modify_self, hb0] at hkb
              simp only [Option.map_some'] at hkb
              injection hkb with hkb
              subst hkb
              simp [alistSum_bump, hb0inv]
            · rw [alistLookup_modify_ne _ _ _ _ hk,
                alistLookup_modify_ne _ _ _ _ hk,
                alistLookup_modify_ne _ _ _ _ hk, hA_ne k hk] at hkb
              exact hinv k b hkb
        · simp only [processWeeklyEntry, huid, hne, Bool.false_eq_true,
            if_false, hs, htk, hte, if_false, Except.ok.injEq] at hok
          rw [← hok]
          constructor
          · simpa [alistKeys_modify] using hA_nd
          · intro k b hkb
            by_cases hk : k = uid
            · subst hk
              rw [alistLookup_modify_self, alistLookup_modify_self,
                alistLookup_modify_self, alistLookup_modify_self,
                alistLookup_modify_self, hb0] at hkb
              simp only [Option.map_some'] at hkb
              injection hkb with hkb
              subst hkb
              simp [alistSum_bump, hb0inv]
            · rw [alistLookup_modify_ne _ _ _ _ hk,
                alistLookup_modify_ne _ _ _ _ hk,
                alistLookup_modify_ne _ _ _ _ hk,
                alistLookup_modify_ne _ _ _ _ hk,
                alistLookup_modify_ne _ _ _ _ hk, hA_ne k hk] at hkb
              exact hinv k b hkb
  · have hskip := processWeeklyEntry_skip nameF m td e (by simpa using hu)
    rw [hskip] at hok
    injection hok with hok
    subst hok
    exact ⟨hnd, hinv⟩

end Clockify

namespace Clockify

/-- The monthly loop body preserves the per-bucket invariant "sum of
`weekly_totals` values = `total_seconds`" together with key uniqueness,
provided the entry (when grouped at all) carries a valid start. -/
theorem processMonthlyEntry_weekly_inv (nameF : String → String)
    (m : List (String × ProjectUser)) (td td' : List (String × MonthlyUserData))
    (e : TimeEntry)
    (hstart : hasUser e = true → ∃ t, e.start = some (Ts.valid t))
    (hok : processMonthlyEntry nameF m td e = .ok td')
    (hnd : (td.map Prod.fst).Nodup)
    (hinv : ∀ k b, alistLookup td k = some b →
      alistSum b.weekly_totals = b.total_seconds) :
    (td'.map Prod.fst).Nodup ∧
    ∀ k b, alistLookup td' k = some b →
      alistSum b.weekly_totals = b.total_seconds := by
  by_cases hu : hasUser e
  · obtain ⟨t, hs⟩ := hstart hu
    rcases huid : e.userId with _ | uid
    · simp [hasUser, truthyStr, huid] at hu
    · have hne : uid.isEmpty = false := by
        simp [hasUser, truthyStr, huid] at hu
        simpa using hu
      have hA_nd : ((if (alistLookup td uid).isSome then td
          else td ++ [(uid,
            { total_seconds := 0, billable_seconds := 0, weekly_totals := [],
              user_name := resolveUserName m nameF uid })]).map Prod.fst).Nodup := by
        by_cases hl : (alistLookup td uid).isSome
        · rw [if_pos hl]
          exact hnd
        · rw [if_neg hl]
          have hnone : alistLookup td uid = none := by
            rcases h : alistLookup td uid with _ | b
            · rfl
            · rw [h] at hl
              simp at hl
          have hmem := (alistLookup_none_iff td uid).mp hnone
          simp [List.nodup_append, hnd, hmem]
      have hA_uid : ∃ b0, alistLookup (if (alistLookup td uid).isSome then td
          else td ++ [(uid,
            { total_seconds := 0, billable_seconds := 0, weekly_totals := [],
              user_name := resolveUserName m nameF uid })]) uid = some b0 ∧
          alistSum b0.weekly_totals = b0.total_seconds := by
        by_cases hl : (alistLookup td uid).isSome
        · rw [if_pos hl]
          rcases h : alistLookup td uid with _ | b0
          · rw [h] at hl
            simp at hl
          · exact ⟨b0, rfl, hinv uid b0 h⟩
        · rw [if_neg hl]
          have hnone : alistLookup td uid = none := by
            rcases h : alistLookup td uid with _ | b
            · rfl
            · rw [h] at hl
              simp at hl
          refine ⟨{ total_seconds := 0, billable_seconds := 0,
                    weekly_totals := [],
                    user_name := resolveUserName m nameF uid }, ?_, ?_⟩
          · rw [alistLookup_append_of_none td _ uid hnone]
            simp [alistLookup]
          · simp [alistSum]
      have hA_ne : ∀ k, k ≠ uid →
          alistLookup (if (alistLookup td uid).isSome then td
            else td ++ [(uid,
              { total_seconds := 0, billable_seconds := 0,
                weekly_totals := [],
                user_name := resolveUserName m nameF uid })]) k =
            alistLookup td k := by
        intro k hk
        by_cases hl : (alistLookup td uid).isSome
        · rw [if_pos hl]
        · rw [if_neg hl]
          exact alistLookup_append_single_ne td uid _ k hk
      obtain ⟨b0, hb0, hb0inv⟩ := hA_uid
      by_cases hbill : e.billable
      · simp only [processMonthlyEntry, huid, hne, Bool.false_eq_true,
          if_false, hs, hbill, if_true, Except.ok.injEq] at hok
        rw [← hok]
        constructor
        · simpa [alistKeys_modify] using hA_nd
        · intro k b hkb
          by_cases hk : k = uid
          · subst hk
            rw [alistLookup_modify_self, alistLookup_modify_self,
              alistLookup_modify_self, hb0] at hkb
            simp only [Option.map_some'] at hkb
            injection hkb with hkb
            subst hkb
            simp [alistSum_bump, hb0inv]
          · rw [alistLookup_modify_ne _ _ _ _ hk,
              alistLookup_modify_ne _ _ _ _ hk,
              alistLookup_modify_ne _ _ _ _ hk, hA_ne k hk] at hkb
            exact hinv k b hkb
      · simp only [processMonthlyEntry, huid, hne, Bool.false_eq_true,
          if_false, hs, hbill, if_false, Except.ok.injEq] at hok
        rw [← hok]
        constructor
        · simpa [alistKeys_modify] using hA_nd
        · intro k b hkb
          by_cases hk : k = uid
          · subst hk
            rw [alistLookup_modify_self, alistLookup_modify_self, hb0] at hkb
            simp only [Option.map_some'] at hkb
            injection hkb with hkb
            subst hkb
            simp [alistSum_bump, hb0inv]
          · rw [alistLookup_modify_ne _ _ _ _ hk,
              alistLookup_modify_ne _ _ _ _ hk, hA_ne k hk] at hkb
            exact hinv k b hkb
  · have hskip := processMonthlyEntry_skip nameF m td e (by simpa using hu)
    rw [hskip] at hok
    injection hok with hok
    subst hok
    exact ⟨hnd, hinv⟩

end Clockify

namespace Clockify

theorem processWeekly_fold_daily (nameF : String → String)
    (m : List (String × ProjectUser)) :
    ∀ (es : List TimeEntry) (td td' : List (String × WeeklyUserData)),
      (∀ e ∈ es, hasUser e = true → ∃ t, e.start = some (Ts.valid t)) →
      es.foldlM (processWeeklyEntry nameF m) td = .ok td' →
      (td.map Prod.fst).Nodup →
      (∀ k b, alistLookup td k = some b →
        alistSum b.daily_hours = b.total_seconds) →
      (td'.map Prod.fst).Nodup ∧
      ∀ k b, alistLookup td' k = some b →
        alistSum b.daily_hours = b.total_seconds := by
  intro es
  induction es with
  | nil =>
    intro td td' _ hok hnd hinv
    simp only [List.foldlM_nil, pure, Except.pure, Except.ok.injEq] at hok
    subst hok
    exact ⟨hnd, hinv⟩
  | cons e es ih =>
    intro td td' hstart hok hnd hinv
    rw [List.foldlM_cons] at hok
    rcases hstep : processWeeklyEntry nameF m td e with err | td1
    · rw [hstep] at hok
      simp [Bind.bind, Except.bind] at hok
    · rw [hstep] at hok
      simp only [Bind.bind, Except.bind] at hok
      have h1 := processWeeklyEntry_daily_inv nameF m td td1 e
        (hstart e (List.mem_cons_self e es)) hstep hnd hinv
      exact ih td1 td' (fun e' he' => hstart e' (List.mem_cons_of_mem e he'))
        hok h1.1 h1.2

theorem processMonthly_fold_weekly (nameF : String → String)
    (m : List (String × ProjectUser)) :
    ∀ (es : List TimeEntry) (td td' : List (String × MonthlyUserData)),
      (∀ e ∈ es, hasUser e = true → ∃ t, e.start = some (Ts.valid t)) →
      es.foldlM (processMonthlyEntry nameF m) td = .ok td' →
      (td.map Prod.fst).Nodup →
      (∀ k b, alistLookup td k = some b →
        alistSum b.weekly_totals = b.total_seconds) →
      (td'.map Prod.fst).Nodup ∧
      ∀ k b, alistLookup td' k = some b →
        alistSum b.weekly_totals = b.total_seconds := by
  intro es
  induction es with
  | nil =>
    intro td td' _ hok hnd hinv
    simp only [List.foldlM_nil, pure, Except.pure, Except.ok.injEq] at hok
    subst hok
    exact ⟨hnd, hinv⟩
  | cons e es ih =>
    intro td td' hstart hok hnd hinv
    rw [List.foldlM_cons] at hok
    rcases hstep : processMonthlyEntry nameF m td e with err | td1
    · rw [hstep] at hok
      simp [Bind.bind, Except.bind] at hok
    · rw [hstep] at hok
      simp only [Bind.bind, Except.bind] at hok
      have h1 := processMonthlyEntry_weekly_inv nameF m td td1 e
        (hstart e (List.mem_cons_self e es)) hstep hnd hinv
      exact ih td1 td' (fun e' he' => hstart e' (List.mem_cons_of_mem e he'))
        hok h1.1 h1.2

/-- **C4** (amended).  When every entry that carries a user identifier also
carries a valid start timestamp, then in every user bucket the weekly
grouping produces, the per-day mapping's values sum to the user's total
seconds, and in every user bucket the monthly grouping produces, the
per-week mapping's values sum to the user's total seconds.  (Without the
start-timestamp condition the claim fails:
`grouping_bucket_sums_cex`.) -/
theorem grouping_bucket_sums (nameF : String → String) (es : List TimeEntry)
    (ps : List ProjectUser) (tdw : List (String × WeeklyUserData))
    (tdm : List (String × MonthlyUserData))
    (hstart : ∀ e ∈ es, hasUser e = true → ∃ t, e.start = some (Ts.valid t))
    (hw : process_weekly_data nameF es ps = .ok tdw)
    (hm : process_monthly_data nameF es ps = .ok tdm) :
    (∀ p ∈ tdw, alistSum p.2.daily_hours = p.2.total_seconds) ∧
    (∀ p ∈ tdm, alistSum p.2.weekly_totals = p.2.total_seconds) := by
  have hWres := processWeekly_fold_daily nameF (buildUserInfoMap ps) es [] tdw
    hstart hw (by simp) (by intro k b hkb; simp [alistLookup] at hkb)
  have hMres := processMonthly_fold_weekly nameF (buildUserInfoMap ps) es []
    tdm hstart hm (by simp) (by intro k b hkb; simp [alistLookup] at hkb)
  constructor
  · intro p hp
    exact hWres.2 p.1 p.2 (alistLookup_of_mem_nodup tdw p.1 p.2 hWres.1
      (by simpa using hp))
  · intro p hp
    exact hMres.2 p.1 p.2 (alistLookup_of_mem_nodup tdm p.1 p.2 hMres.1
      (by simpa using hp))

/-- **C4 counterexample.**  A single entry with a user identifier and an
explicit duration but no start timestamp produces a bucket whose total is
1800 while both the per-day mapping (weekly grouping) and the per-week
mapping (monthly grouping) are empty, so their value sums are 0 ≠ 1800. -/
theorem grouping_bucket_sums_cex :
    process_weekly_data (fun _ => "x")
        [{ userId := some "u1", duration := some 1800 }] [] =
      Except.ok [("u1",
        { total_seconds := 1800, tasks := [], daily_hours := [],
          daily_tasks := [], user_name := "x" })] ∧
    process_monthly_data (fun _ => "x")
        [{ userId := some "u1", duration := some 1800 }] [] =
      Except.ok [("u1",
        { total_seconds := 1800, billable_seconds := 0, weekly_totals := [],
          user_name := "x" })] ∧
    alistSum ([] : List (String × Int)) ≠ (1800 : Int) := by
  refine ⟨rfl, rfl, ?_⟩
  decide

end Clockify

namespace Clockify

/-- Witness for the amended C4: one entry for `u1` with duration 1800 and a
valid start groups (weekly) into a per-day mapping summing to the total
1800, and (monthly) into a per-week mapping summing to the total 1800. -/
theorem grouping_bucket_sums_witness :
    alistSum [("Thursday", (1800 : Int))] = (1800 : Int) ∧
    alistSum [("1969-12-29", (1800 : Int))] = (1800 : Int) := by
  have h := grouping_bucket_sums (fun _ => "x")
    [{ userId := some "u1", duration := some 1800, start := some (.valid 0) }]
    []
    [("u1",
      { total_seconds := 1800, tasks := [],
        daily_hours := [("Thursday", 1800)],
        daily_tasks := [("Thursday", [])], user_name := "x" })]
    [("u1",
      { total_seconds := 1800, billable_seconds := 0,
        weekly_totals := [("1969-12-29", 1800)], user_name := "x" })]
    (by
      intro e he hu
      simp at he
      subst he
      exact ⟨0, rfl⟩)
    rfl rfl
  exact ⟨h.1 ("u1",
      { total_seconds := 1800, tasks := [],
        daily_hours := [("Thursday", 1800)],
        daily_tasks := [("Thursday", [])], user_name := "x" })
      (by simp),
    h.2 ("u1",
      { total_seconds := 1800, billable_seconds := 0,
        weekly_totals := [("1969-12-29", 1800)], user_name := "x" })
      (by simp)⟩

end Clockify
